import Mathlib

/-!
Verification of the asynchronous transcription pipeline of app.py
(function process_audio_file and its helpers).

The embedding models one background job run.  External collaborators are
modelled as oracles:
  - the recognition service is a function from the 1-based chunk index to a
    RecognitionOutcome (success text, UnknownValueError, or RequestError);
  - the audio conversion, the chunk export and the final file write may fail,
    modelled by Option String parameters carrying the exception message;
  - the process-wide dictionary transcription_queues is shared with other
    threads, so each evaluation of the guard
    "queue_id in transcription_queues" is modelled by an oracle
    reg : Nat -> Bool indexed by the number of guards evaluated so far.
Within the run everything is deterministic and is translated line by line
from app.py.
-/

/-- Events put into a job's queue, mirroring the JSON dictionaries that
app.py builds: progress (keys chunk/total), transcription (key text),
complete (key download_link) and error (key message). -/
inductive Event where
  | progress (chunk total : Nat)
  | transcription (text : String)
  | complete (download_link : String)
  | error (message : String)
  deriving DecidableEq, Repr

/-- Outcome of one recognizer.recognize_google call on a chunk:
success returns the recognized text, notUnderstood models
sr.UnknownValueError, serviceError models sr.RequestError with its
message. -/
inductive RecognitionOutcome where
  | success (text : String)
  | notUnderstood
  | serviceError (msg : String)
  deriving DecidableEq, Repr

/-- True exactly on the serviceError outcome. -/
def isServiceError : RecognitionOutcome → Bool
  | RecognitionOutcome.serviceError _ => true
  | _ => false

/-- The placeholder text substituted on sr.UnknownValueError
(app.py line 103). -/
def placeholder : String := "\x7bnot understood here\x7d"

/-- The text contributed by a chunk: the recognized text on success and the
fixed placeholder on notUnderstood (the serviceError case aborts before any
text is used; the value here is irrelevant and chosen as the placeholder). -/
def outcome_text : RecognitionOutcome → String
  | RecognitionOutcome.success t => t
  | RecognitionOutcome.notUnderstood => placeholder
  | RecognitionOutcome.serviceError _ => placeholder

/-- CHUNK_FOLDER of app.py. -/
def CHUNK_FOLDER : String := "audio_chunks"

/-- TRANSCRIPT_FOLDER of app.py. -/
def TRANSCRIPT_FOLDER : String := "transcriptions"

/-- chunk_length_ms of app.py line 72: 60 seconds. -/
def chunk_length_ms : Nat := 60000

/-- num_chunks of app.py line 74:
total // chunk + (1 if total % chunk else 0). -/
def num_chunks (total_length_ms L : Nat) : Nat :=
  total_length_ms / L + (if total_length_ms % L ≠ 0 then 1 else 0)

/-- start of chunk i (0-based), app.py line 82. -/
def chunk_start (i L : Nat) : Nat := i * L

/-- end of chunk i (0-based), app.py line 83: min((i+1)*L, total). -/
def chunk_stop (i L total : Nat) : Nat := min ((i + 1) * L) total

/-- duration in ms of chunk i: the length of the slice audio[start:end]. -/
def chunk_ms (i L total : Nat) : Nat := chunk_stop i L total - chunk_start i L

/-- output_dir of app.py line 76. -/
def output_dir (base : String) : String :=
  CHUNK_FOLDER ++ "/audio_chunks_for_" ++ base

/-- chunk_filename of app.py line 85: output_dir joined with the 1-based
sequence number and the .wav suffix. -/
def chunk_filename (base : String) (i : Nat) : String :=
  output_dir base ++ "/" ++ toString (i + 1) ++ ".wav"

/-- One exported chunk: its file name and the slice bounds in ms. -/
structure Chunk where
  file : String
  start : Nat
  stop : Nat
  deriving DecidableEq, Repr

/-- The chunks produced by the splitting loop of app.py lines 81-88. -/
def chunks (base : String) (total L : Nat) : List Chunk :=
  (List.range (num_chunks total L)).map
    (fun i => ⟨chunk_filename base i, chunk_start i L, chunk_stop i L total⟩)

/-- transcription_file of app.py lines 131-134. -/
def transcript_path (base : String) : String :=
  TRANSCRIPT_FOLDER ++ "/transcription_for_" ++ base ++ ".txt"

/-- Python str.strip(): drop whitespace from both ends.  Defined by
structural recursion on the character list so that it evaluates. -/
def pystrip (s : String) : String :=
  String.mk (((s.data.dropWhile Char.isWhitespace).reverse.dropWhile
    Char.isWhitespace).reverse)

/-- Result of the transcription loop of app.py lines 96-127: the
accumulated transcript, the events put into the queue, the number of
registry guards evaluated, and the exception message when a chunk raised
(RequestError path). -/
structure LoopResult where
  transcript : String
  events : List Event
  checks : Nat
  failure : Option String
  deriving DecidableEq, Repr

/-- The two events put for one processed chunk (app.py lines 115-123):
progress with the 1-based index and total, then transcription with the
chunk text plus a trailing space. -/
def pair_events (text : String) (idx N : Nat) : List Event :=
  [Event.progress idx N, Event.transcription (text ++ " ")]

/-- The transcription loop of app.py lines 96-127 over the list of
recognition outcomes, one per chunk; idx is the 1-based index of the next
chunk, c the number of registry guards evaluated so far, acc the
accumulated full_transcription.  On RequestError the loop stops with the
chained exception message; otherwise the chunk text (recognized or the
placeholder) plus a space is appended to the transcript, and, when the
registry guard holds, the progress/transcription pair is put. -/
def transcribe_chunks (N : Nat) (reg : Nat → Bool) :
    List RecognitionOutcome → Nat → Nat → String → LoopResult
  | [], _, c, acc => ⟨acc, [], c, none⟩
  | RecognitionOutcome.serviceError msg :: _, idx, c, acc =>
      ⟨acc, [], c,
        some ("Transcription failed at chunk " ++ toString idx ++
          ": Could not request results: " ++ msg)⟩
  | RecognitionOutcome.success t :: rest, idx, c, acc =>
      let r := transcribe_chunks N reg rest (idx + 1) (c + 1) (acc ++ t ++ " ")
      ⟨r.transcript, (if reg c then pair_events t idx N else []) ++ r.events,
        r.checks, r.failure⟩
  | RecognitionOutcome.notUnderstood :: rest, idx, c, acc =>
      let r := transcribe_chunks N reg rest (idx + 1) (c + 1)
        (acc ++ placeholder ++ " ")
      ⟨r.transcript,
        (if reg c then pair_events placeholder idx N else []) ++ r.events,
        r.checks, r.failure⟩

/-- The list of recognition outcomes the loop consumes: one call per chunk,
chunks enumerated with 1-based indices (enumerate(chunk_files, 1)). -/
def outs_from (recognize : Nat → RecognitionOutcome) : Nat → Nat →
    List RecognitionOutcome
  | 0, _ => []
  | n + 1, idx => recognize idx :: outs_from recognize n (idx + 1)

/-- Result of one whole process_audio_file run: the events put into the
job's queue, the transcript file written (path and content, none when the
run failed before the write), how many times the finally-block teardown
ran, and whether the teardown actually deleted the registry entry. -/
structure RunResult where
  events : List Event
  saved : Option (String × String)
  teardown_runs : Nat
  teardown_del : Bool
  deriving DecidableEq, Repr

/-- A guarded queue put (app.py lines 114, 139, 150): the event list it
contributes is empty when the registry guard fails. -/
def pushIf (reg : Nat → Bool) (c : Nat) (e : Event) : List Event :=
  if reg c then [e] else []

/-- The finally block of app.py lines 155-158: it runs exactly once per
run and deletes the registry entry when the guard (the c-th one) holds. -/
def finish (evs : List Event) (saved : Option (String × String))
    (reg : Nat → Bool) (c : Nat) : RunResult :=
  ⟨evs, saved, 1, reg c⟩

/-- app.py lines 129-154 after the transcription loop: on a loop failure
put the error event (guard r.checks) and skip the save; otherwise try the
save, on failure put the error event, on success write the stripped
transcript and put the complete event; then run the finally block (guard
one later). -/
def after_loop (base : String) (save_error : Option String)
    (reg : Nat → Bool) (r : LoopResult) : RunResult :=
  match r.failure with
  | some m =>
      finish (r.events ++
          pushIf reg r.checks (Event.error ("Processing failed: " ++ m)))
        none reg (r.checks + 1)
  | none =>
      match save_error with
      | some m =>
          finish (r.events ++
              pushIf reg r.checks (Event.error
                ("Processing failed: Failed to save transcription: " ++ m)))
            none reg (r.checks + 1)
      | none =>
          finish (r.events ++
              pushIf reg r.checks (Event.complete (transcript_path base)))
            (some (transcript_path base, pystrip r.transcript))
            reg (r.checks + 1)

/-- process_audio_file of app.py lines 56-158 for one job whose file has
basename base (extension stripped).  convert_error, split_error and
save_error carry the exception message when the conversion (line 64), the
chunk export (lines 71-88) or the transcript write (lines 130-136) fails;
total_length_ms is len(audio); recognize is the recognition service;
reg is the oracle answering the successive registry guards. -/
def process_audio_file (base : String)
    (convert_error split_error save_error : Option String)
    (total_length_ms : Nat) (recognize : Nat → RecognitionOutcome)
    (reg : Nat → Bool) : RunResult :=
  match convert_error with
  | some m =>
      finish (pushIf reg 0 (Event.error
          ("Processing failed: Audio conversion failed: " ++ m))) none reg 1
  | none =>
      match split_error with
      | some m =>
          finish (pushIf reg 0 (Event.error
              ("Processing failed: Chunk creation failed: " ++ m))) none reg 1
      | none =>
          after_loop base save_error reg
            (transcribe_chunks (num_chunks total_length_ms chunk_length_ms) reg
              (outs_from recognize (num_chunks total_length_ms chunk_length_ms) 1)
              1 0 "")

/-- The process-wide transcription_queues dictionary: job id to queue. -/
def Registry := String → Option (List Event)

/-- Membership test, the "queue_id in transcription_queues" guard. -/
def Registry.contains (r : Registry) (k : String) : Bool := (r k).isSome

/-- Guarded put: append the event to the queue under k when k is
registered, otherwise do nothing (app.py lines 114-123, 139-143,
150-154). -/
def Registry.push (r : Registry) (k : String) (e : Event) : Registry :=
  if r.contains k then
    fun k2 => if k2 = k then (r k).map (fun q => q ++ [e]) else r k2
  else r

/-- Guarded deletion, the teardown of app.py lines 157-158: delete the
entry when present, otherwise do nothing. -/
def Registry.deregister (r : Registry) (k : String) : Registry :=
  if r.contains k then fun k2 => if k2 = k then none else r k2 else r

/-- The chunk indices of the progress events of a list, in order. -/
def progress_chunks : List Event → List Nat
  | [] => []
  | Event.progress i _ :: rest => i :: progress_chunks rest
  | _ :: rest => progress_chunks rest

/-- The texts of the transcription events of a list, in order. -/
def fragment_texts : List Event → List String
  | [] => []
  | Event.transcription t :: rest => t :: fragment_texts rest
  | _ :: rest => fragment_texts rest

/-- Terminal events: complete and error. -/
def isTerminal : Event → Bool
  | Event.complete _ => true
  | Event.error _ => true
  | _ => false

/-- Concatenation of a list of strings. -/
def concat_strings : List String → String
  | [] => ""
  | s :: rest => s ++ concat_strings rest

/-- The transcript the loop accumulates for n chunks starting at 1-based
index idx: each chunk contributes its text plus a space. -/
def expected_transcript (recognize : Nat → RecognitionOutcome) :
    Nat → Nat → String
  | 0, _ => ""
  | n + 1, idx =>
      (outcome_text (recognize idx) ++ " ") ++
        expected_transcript recognize n (idx + 1)

/-- The events the loop puts for n chunks starting at 1-based index idx
when every registry guard holds: for each chunk the progress event then
the transcription event. -/
def expected_events (recognize : Nat → RecognitionOutcome) (N : Nat) :
    Nat → Nat → List Event
  | 0, _ => []
  | n + 1, idx =>
      pair_events (outcome_text (recognize idx)) idx N ++
        expected_events recognize N n (idx + 1)

/-- The transcription-event texts for n chunks starting at index idx. -/
def expected_fragments (recognize : Nat → RecognitionOutcome) :
    Nat → Nat → List String
  | 0, _ => []
  | n + 1, idx =>
      (outcome_text (recognize idx) ++ " ") ::
        expected_fragments recognize n (idx + 1)

/-- The events the loop puts for n chunks starting at index idx under an
arbitrary guard oracle, c being the index of the next guard. -/
def guarded_events (reg : Nat → Bool) (recognize : Nat → RecognitionOutcome)
    (N : Nat) : Nat → Nat → Nat → List Event
  | 0, _, _ => []
  | n + 1, idx, c =>
      (if reg c then pair_events (outcome_text (recognize idx)) idx N
        else []) ++ guarded_events reg recognize N n (idx + 1) (c + 1)

/-- n consecutive naturals starting at idx. -/
def range_from : Nat → Nat → List Nat
  | 0, _ => []
  | n + 1, idx => idx :: range_from n (idx + 1)

/-- Modelled from the spec: the transcript trimmed of trailing whitespace
and only trailing whitespace, the save behaviour claimed in the spec
(section 4.4 step 4); to be compared with pystrip, which is what app.py
line 136 actually applies. -/
def spec_trailing_trim (s : String) : String :=
  String.mk ((s.data.reverse.dropWhile Char.isWhitespace).reverse)

/-! ## Helper lemmas -/

theorem str_append_assoc (a b c : String) : a ++ b ++ c = a ++ (b ++ c) :=
  String.append_assoc a b c

theorem str_append_empty (a : String) : a ++ "" = a :=
  String.append_empty a

theorem str_empty_append (a : String) : "" ++ a = a :=
  String.empty_append a

theorem fragment_texts_append (l1 l2 : List Event) :
    fragment_texts (l1 ++ l2) = fragment_texts l1 ++ fragment_texts l2 := by
  induction l1 with
  | nil => simp [fragment_texts]
  | cons e rest ih => cases e <;> simp [fragment_texts, ih]

theorem progress_chunks_append (l1 l2 : List Event) :
    progress_chunks (l1 ++ l2) = progress_chunks l1 ++ progress_chunks l2 := by
  induction l1 with
  | nil => simp [progress_chunks]
  | cons e rest ih => cases e <;> simp [progress_chunks, ih]

theorem filter_terminal_append (l1 l2 : List Event) :
    (l1 ++ l2).filter isTerminal = l1.filter isTerminal ++ l2.filter isTerminal :=
  List.filter_append l1 l2

theorem transcribe_chunks_no_terminal (N : Nat) (reg : Nat → Bool)
    (outs : List RecognitionOutcome) :
    ∀ (idx c : Nat) (acc : String),
      (transcribe_chunks N reg outs idx c acc).events.filter isTerminal = [] := by
  induction outs with
  | nil => intro idx c acc; simp [transcribe_chunks]
  | cons o rest ih =>
      intro idx c acc
      cases o with
      | serviceError msg => simp [transcribe_chunks]
      | success t =>
          by_cases h : reg c <;>
            simp [transcribe_chunks, h, pair_events, isTerminal,
              List.filter_append, ih]
      | notUnderstood =>
          by_cases h : reg c <;>
            simp [transcribe_chunks, h, pair_events, isTerminal,
              List.filter_append, ih]

theorem transcribe_chunks_reg_indep (N : Nat) (reg1 reg2 : Nat → Bool)
    (outs : List RecognitionOutcome) :
    ∀ (idx c : Nat) (acc : String),
      (transcribe_chunks N reg1 outs idx c acc).transcript =
          (transcribe_chunks N reg2 outs idx c acc).transcript
        ∧ (transcribe_chunks N reg1 outs idx c acc).checks =
          (transcribe_chunks N reg2 outs idx c acc).checks
        ∧ (transcribe_chunks N reg1 outs idx c acc).failure =
          (transcribe_chunks N reg2 outs idx c acc).failure := by
  induction outs with
  | nil => intro idx c acc; simp [transcribe_chunks]
  | cons o rest ih =>
      intro idx c acc
      cases o with
      | serviceError msg => simp [transcribe_chunks]
      | success t => simpa [transcribe_chunks] using ih (idx + 1) (c + 1) (acc ++ t ++ " ")
      | notUnderstood =>
          simpa [transcribe_chunks] using ih (idx + 1) (c + 1) (acc ++ placeholder ++ " ")


theorem transcribe_chunks_ok (recognize : Nat → RecognitionOutcome)
    (N : Nat) (reg : Nat → Bool) :
    ∀ (n idx c : Nat) (acc : String),
      (∀ j, idx ≤ j → j < idx + n → isServiceError (recognize j) = false) →
      transcribe_chunks N reg (outs_from recognize n idx) idx c acc =
        ⟨acc ++ expected_transcript recognize n idx,
          guarded_events reg recognize N n idx c, c + n, none⟩ := by
  intro n
  induction n with
  | zero =>
      intro idx c acc _
      simp [outs_from, transcribe_chunks, expected_transcript, guarded_events,
        str_append_empty]
  | succ m ih =>
      intro idx c acc hok
      have htail : ∀ j, idx + 1 ≤ j → j < idx + 1 + m →
          isServiceError (recognize j) = false := by
        intro j h1 h2; exact hok j (by omega) (by omega)
      have hhead : isServiceError (recognize idx) = false :=
        hok idx (Nat.le_refl idx) (by omega)
      rw [outs_from]
      rcases ho : recognize idx with t | _ | m2
      · simp only [transcribe_chunks]
        rw [ih (idx + 1) (c + 1) (acc ++ t ++ " ") htail]
        simp only [expected_transcript, guarded_events, ho, outcome_text,
          LoopResult.mk.injEq]
        exact ⟨by simp [str_append_assoc], trivial, by omega, trivial⟩
      · simp only [transcribe_chunks]
        rw [ih (idx + 1) (c + 1) (acc ++ placeholder ++ " ") htail]
        simp only [expected_transcript, guarded_events, ho, outcome_text,
          LoopResult.mk.injEq]
        exact ⟨by simp [str_append_assoc], trivial, by omega, trivial⟩
      · rw [ho] at hhead
        simp [isServiceError] at hhead

theorem transcribe_chunks_err (recognize : Nat → RecognitionOutcome)
    (N : Nat) (msg : String) :
    ∀ (p n idx c : Nat) (acc : String), p < n →
      (∀ j, idx ≤ j → j < idx + p → isServiceError (recognize j) = false) →
      recognize (idx + p) = RecognitionOutcome.serviceError msg →
      transcribe_chunks N (fun _ => true) (outs_from recognize n idx) idx c acc =
        ⟨acc ++ expected_transcript recognize p idx,
          expected_events recognize N p idx, c + p,
          some ("Transcription failed at chunk " ++ toString (idx + p) ++
            ": Could not request results: " ++ msg)⟩ := by
  intro p
  induction p with
  | zero =>
      intro n idx c acc hpn _ herr
      rcases n with _ | m
      · omega
      · rw [outs_from]
        rw [show recognize idx = RecognitionOutcome.serviceError msg from by
          simpa using herr]
        simp [transcribe_chunks, expected_transcript, expected_events,
          str_append_empty]
  | succ q ih =>
      intro n idx c acc hpn hok herr
      rcases n with _ | m
      · omega
      · have hhead : isServiceError (recognize idx) = false :=
          hok idx (Nat.le_refl idx) (by omega)
        rw [outs_from]
        rcases ho : recognize idx with t | _ | m2
        · simp only [transcribe_chunks]
          rw [ih m (idx + 1) (c + 1) (acc ++ t ++ " ") (by omega)
            (by intro j h1 h2; exact hok j (by omega) (by omega))
            (by rw [show idx + 1 + q = idx + (q + 1) from by omega]; exact herr)]
          simp only [expected_transcript, expected_events, ho, outcome_text,
            pair_events, LoopResult.mk.injEq]
          refine ⟨by simp [str_append_assoc], by simp, by omega, ?_⟩
          rw [show idx + 1 + q = idx + (q + 1) from by omega]
        · simp only [transcribe_chunks]
          rw [ih m (idx + 1) (c + 1) (acc ++ placeholder ++ " ") (by omega)
            (by intro j h1 h2; exact hok j (by omega) (by omega))
            (by rw [show idx + 1 + q = idx + (q + 1) from by omega]; exact herr)]
          simp only [expected_transcript, expected_events, ho, outcome_text,
            pair_events, LoopResult.mk.injEq]
          refine ⟨by simp [str_append_assoc], by simp, by omega, ?_⟩
          rw [show idx + 1 + q = idx + (q + 1) from by omega]
        · rw [ho] at hhead
          simp [isServiceError] at hhead

theorem guarded_events_true (recognize : Nat → RecognitionOutcome) (N : Nat) :
    ∀ (n idx c : Nat),
      guarded_events (fun _ => true) recognize N n idx c =
        expected_events recognize N n idx := by
  intro n
  induction n with
  | zero => intro idx c; simp [guarded_events, expected_events]
  | succ m ih => intro idx c; simp [guarded_events, expected_events, ih]

theorem fragment_texts_expected (recognize : Nat → RecognitionOutcome) (N : Nat) :
    ∀ (n idx : Nat),
      fragment_texts (expected_events recognize N n idx) =
        expected_fragments recognize n idx := by
  intro n
  induction n with
  | zero => intro idx; simp [expected_events, expected_fragments, fragment_texts]
  | succ m ih =>
      intro idx
      simp [expected_events, expected_fragments, pair_events, fragment_texts, ih]

theorem progress_chunks_expected (recognize : Nat → RecognitionOutcome) (N : Nat) :
    ∀ (n idx : Nat),
      progress_chunks (expected_events recognize N n idx) = range_from n idx := by
  intro n
  induction n with
  | zero => intro idx; simp [expected_events, range_from, progress_chunks]
  | succ m ih =>
      intro idx
      simp [expected_events, range_from, pair_events, progress_chunks, ih]

theorem concat_expected_fragments (recognize : Nat → RecognitionOutcome) :
    ∀ (n idx : Nat),
      concat_strings (expected_fragments recognize n idx) =
        expected_transcript recognize n idx := by
  intro n
  induction n with
  | zero => intro idx; simp [expected_fragments, expected_transcript, concat_strings]
  | succ m ih =>
      intro idx
      simp [expected_fragments, expected_transcript, concat_strings, ih]

theorem expected_events_no_terminal (recognize : Nat → RecognitionOutcome) (N : Nat) :
    ∀ (n idx : Nat),
      (expected_events recognize N n idx).filter isTerminal = [] := by
  intro n
  induction n with
  | zero => intro idx; simp [expected_events]
  | succ m ih =>
      intro idx
      simp [expected_events, pair_events, isTerminal, List.filter_append, ih]

theorem range_from_eq_map : ∀ (n idx : Nat),
    range_from n idx = (List.range n).map (fun j => idx + j) := by
  intro n
  induction n with
  | zero => intro idx; simp [range_from]
  | succ m ih =>
      intro idx
      rw [List.range_succ_eq_map]
      simp only [range_from, List.map_cons, List.map_map, Nat.add_zero]
      congr 1
      rw [ih (idx + 1)]
      congr 1
      funext j
      simp [Function.comp]
      omega

theorem num_chunks_eq_ceil (d L : Nat) (hL : 0 < L) :
    num_chunks d L = (d + L - 1) / L := by
  have hq := Nat.div_add_mod d L
  have hr : d % L < L := Nat.mod_lt d hL
  unfold num_chunks
  by_cases hm : d % L = 0
  · simp only [hm, ne_eq, not_true_eq_false, if_false, Nat.add_zero]
    have h1 : d + L - 1 = L * (d / L) + (L - 1) := by omega
    rw [h1, Nat.mul_add_div hL]
    have h2 : (L - 1) / L = 0 := Nat.div_eq_of_lt (by omega)
    omega
  · simp only [hm, ne_eq, not_false_eq_true, if_true]
    have h0 : L * (d / L + 1) = L * (d / L) + L := by ring
    have h1 : d + L - 1 = L * (d / L + 1) + (d % L - 1) := by omega
    rw [h1, Nat.mul_add_div hL]
    have h2 : (d % L - 1) / L = 0 := Nat.div_eq_of_lt (by omega)
    omega

theorem succ_le_div_of_succ_lt_num_chunks (d L i : Nat)
    (h : i + 1 < num_chunks d L) : i + 1 ≤ d / L := by
  unfold num_chunks at h
  by_cases hm : d % L = 0 <;> simp [hm] at h <;> omega

theorem succ_mul_le_of_succ_lt_num_chunks (d L i : Nat)
    (h : i + 1 < num_chunks d L) : (i + 1) * L ≤ d :=
  calc (i + 1) * L ≤ d / L * L :=
        Nat.mul_le_mul_right L (succ_le_div_of_succ_lt_num_chunks d L i h)
    _ ≤ d := Nat.div_mul_le_self d L

theorem mul_lt_of_lt_num_chunks (d L i : Nat) (hL : 0 < L)
    (h : i < num_chunks d L) : i * L < d := by
  have hq := Nat.div_add_mod d L
  have hr : d % L < L := Nat.mod_lt d hL
  have hle : i ≤ d / L := by
    unfold num_chunks at h
    by_cases hm : d % L = 0 <;> simp [hm] at h <;> omega
  have hmul : i * L ≤ d / L * L := Nat.mul_le_mul_right L hle
  have hdm : d / L * L ≤ d := Nat.div_mul_le_self d L
  by_cases hm : d % L = 0
  · have hstrict : i < d / L := by
      unfold num_chunks at h
      simp [hm] at h
      exact h
    have h1 : (i + 1) * L ≤ d / L * L := Nat.mul_le_mul_right L hstrict
    have h2 : (i + 1) * L = i * L + L := by ring
    omega
  · have hc : d / L * L = L * (d / L) := Nat.mul_comm _ _
    omega

theorem num_chunks_pos (d L : Nat) (hL : 0 < L) (hd : 0 < d) :
    0 < num_chunks d L := by
  have hq := Nat.div_add_mod d L
  unfold num_chunks
  by_cases hm : d % L = 0
  · simp only [hm, ne_eq, not_true_eq_false, if_false, Nat.add_zero]
    rcases hdl : d / L with _ | q
    · rw [hdl] at hq; simp at hq; omega
    · omega
  · simp [hm]

theorem chunk_ms_full (d L i : Nat) (h : i + 1 < num_chunks d L) :
    chunk_ms i L d = L := by
  have h1 : (i + 1) * L ≤ d := succ_mul_le_of_succ_lt_num_chunks d L i h
  have h2 : (i + 1) * L = i * L + L := by ring
  unfold chunk_ms chunk_stop chunk_start
  omega

theorem chunk_ms_last (d L : Nat) (hL : 0 < L) (hd : 0 < d) :
    chunk_ms (num_chunks d L - 1) L d =
      if d % L = 0 then L else d % L := by
  have hq := Nat.div_add_mod d L
  have hr : d % L < L := Nat.mod_lt d hL
  have hN : 0 < num_chunks d L := num_chunks_pos d L hL hd
  unfold chunk_ms chunk_stop chunk_start
  unfold num_chunks at hN ⊢
  by_cases hm : d % L = 0
  · rw [if_pos hm]
    simp only [hm, ne_eq, not_true_eq_false, if_false, Nat.add_zero] at hN ⊢
    rcases hdl : d / L with _ | q
    · omega
    · rw [hdl] at hq
      simp only [Nat.add_sub_cancel]
      have e2 : L * (q + 1) = L * q + L := by ring
      have ed : (q + 1) * L = d := by
        have e1 : (q + 1) * L = L * (q + 1) := Nat.mul_comm _ _
        omega
      rw [ed, Nat.min_self]
      have e3 : q * L = L * q := Nat.mul_comm _ _
      omega
  · rw [if_neg hm]
    simp only [hm, ne_eq, not_false_eq_true, if_true] at hN ⊢
    simp only [Nat.add_sub_cancel]
    have e1 : (d / L + 1) * L = L * (d / L) + L := by ring
    have hle : d ≤ (d / L + 1) * L := by omega
    rw [Nat.min_eq_right hle]
    have e2 : d / L * L = L * (d / L) := Nat.mul_comm _ _
    omega

theorem chunk_ms_pos (d L i : Nat) (hL : 0 < L) (h : i < num_chunks d L) :
    0 < chunk_ms i L d := by
  have h1 : i * L < d := mul_lt_of_lt_num_chunks d L i hL h
  have h2 : (i + 1) * L = i * L + L := by ring
  unfold chunk_ms chunk_stop chunk_start
  omega

theorem chunk_stop_eq_next_start (d L i : Nat) (h : i + 1 < num_chunks d L) :
    chunk_stop i L d = chunk_start (i + 1) L := by
  have h1 : (i + 1) * L ≤ d := succ_mul_le_of_succ_lt_num_chunks d L i h
  unfold chunk_stop chunk_start
  omega

theorem chunk_stop_last (d L : Nat) (hL : 0 < L) (hd : 0 < d) :
    chunk_stop (num_chunks d L - 1) L d = d := by
  have hq := Nat.div_add_mod d L
  have hr : d % L < L := Nat.mod_lt d hL
  have hN : 0 < num_chunks d L := num_chunks_pos d L hL hd
  unfold chunk_stop
  unfold num_chunks at hN ⊢
  by_cases hm : d % L = 0
  · simp only [hm, ne_eq, not_true_eq_false, if_false, Nat.add_zero] at hN ⊢
    rcases hdl : d / L with _ | q
    · omega
    · rw [hdl] at hq
      simp only [Nat.add_sub_cancel]
      have e2 : L * (q + 1) = L * q + L := by ring
      have ed : (q + 1) * L = d := by
        have e1 : (q + 1) * L = L * (q + 1) := Nat.mul_comm _ _
        omega
      rw [ed, Nat.min_self]
  · simp only [hm, ne_eq, not_false_eq_true, if_true] at hN ⊢
    simp only [Nat.add_sub_cancel]
    have e1 : (d / L + 1) * L = L * (d / L) + L := by ring
    have hle : d ≤ (d / L + 1) * L := by omega
    exact Nat.min_eq_right hle

theorem process_ok (base : String) (d : Nat)
    (recognize : Nat → RecognitionOutcome)
    (hok : ∀ i, 1 ≤ i → i ≤ num_chunks d chunk_length_ms →
      isServiceError (recognize i) = false) :
    process_audio_file base none none none d recognize (fun _ => true) =
      ⟨expected_events recognize (num_chunks d chunk_length_ms)
          (num_chunks d chunk_length_ms) 1 ++
            [Event.complete (transcript_path base)],
        some (transcript_path base,
          pystrip (expected_transcript recognize
            (num_chunks d chunk_length_ms) 1)),
        1, true⟩ := by
  simp only [process_audio_file]
  rw [transcribe_chunks_ok recognize (num_chunks d chunk_length_ms)
    (fun _ => true) (num_chunks d chunk_length_ms) 1 0 ""
    (by intro j h1 h2; exact hok j h1 (by omega))]
  simp [after_loop, finish, pushIf, guarded_events_true, str_empty_append]

theorem progress_mem_expected (recognize : Nat → RecognitionOutcome) (N : Nat) :
    ∀ (n idx i t : Nat),
      Event.progress i t ∈ expected_events recognize N n idx →
      idx ≤ i ∧ i < idx + n := by
  intro n
  induction n with
  | zero => intro idx i t h; simp [expected_events] at h
  | succ m ih =>
      intro idx i t h
      simp only [expected_events, pair_events, List.cons_append,
        List.nil_append, List.mem_cons] at h
      rcases h with h | h | h
      · rcases Event.progress.injEq _ _ _ _ ▸ h with ⟨h1, h2⟩
        omega
      · exact absurd h (by simp)
      · have := ih (idx + 1) i t h
        omega

theorem transcription_mem_expected (recognize : Nat → RecognitionOutcome)
    (N : Nat) :
    ∀ (n idx : Nat) (s : String),
      Event.transcription s ∈ expected_events recognize N n idx →
      ∃ j, idx ≤ j ∧ j < idx + n ∧ s = outcome_text (recognize j) ++ " " := by
  intro n
  induction n with
  | zero => intro idx s h; simp [expected_events] at h
  | succ m ih =>
      intro idx s h
      simp only [expected_events, pair_events, List.cons_append,
        List.nil_append, List.mem_cons] at h
      rcases h with h | h | h
      · exact absurd h (by simp)
      · refine ⟨idx, Nat.le_refl idx, by omega, ?_⟩
        have := Event.transcription.injEq s (outcome_text (recognize idx) ++ " ") ▸ h
        simpa using h
      · obtain ⟨j, h1, h2, h3⟩ := ih (idx + 1) s h
        exact ⟨j, by omega, by omega, h3⟩

theorem expected_fragments_length (recognize : Nat → RecognitionOutcome) :
    ∀ (n idx : Nat), (expected_fragments recognize n idx).length = n := by
  intro n
  induction n with
  | zero => intro idx; simp [expected_fragments]
  | succ m ih => intro idx; simp [expected_fragments, ih]

theorem expected_fragments_getElem (recognize : Nat → RecognitionOutcome) :
    ∀ (n idx i : Nat), i < n →
      (expected_fragments recognize n idx)[i]? =
        some (outcome_text (recognize (idx + i)) ++ " ") := by
  intro n
  induction n with
  | zero => intro idx i h; omega
  | succ m ih =>
      intro idx i h
      rcases i with _ | i2
      · simp [expected_fragments]
      · rw [show expected_fragments recognize (m + 1) idx =
          (outcome_text (recognize idx) ++ " ") ::
            expected_fragments recognize m (idx + 1) from rfl]
        rw [List.getElem?_cons_succ]
        rw [ih (idx + 1) i2 (by omega)]
        rw [show idx + 1 + i2 = idx + (i2 + 1) from by omega]

theorem deregister_contains_false (r2 : Registry) (k : String) :
    (Registry.deregister r2 k).contains k = false := by
  unfold Registry.deregister Registry.contains
  by_cases h : (r2 k).isSome <;> simp [h]

theorem process_teardown_runs (base : String)
    (convert_error split_error save_error : Option String) (d : Nat)
    (recognize : Nat → RecognitionOutcome) (reg : Nat → Bool) :
    (process_audio_file base convert_error split_error save_error d recognize
      reg).teardown_runs = 1 := by
  cases convert_error with
  | some cm => simp [process_audio_file, finish]
  | none =>
      cases split_error with
      | some sm => simp [process_audio_file, finish]
      | none =>
          rcases hE : transcribe_chunks (num_chunks d chunk_length_ms) reg
              (outs_from recognize (num_chunks d chunk_length_ms) 1) 1 0 ""
            with ⟨t, evs, ck, fl⟩
          simp only [process_audio_file]
          rw [hE]
          cases fl <;> cases save_error <;> simp [after_loop, finish]

/-! ## Claim theorems -/

/-- Claim C5: for total duration d and segment length L the segmenter
produces exactly ceil(d / L) consecutive non-overlapping segments in
order, each of length L except the final one, which has length d mod L
(or L when L divides d); a zero-length final segment is never produced,
the segments tile [0, d], and segment i is written to the job's output
directory under its 1-based name. -/
theorem c5_segmenter_geometry (base : String) (d L : Nat) (hL : 0 < L) :
    (chunks base d L).length = (d + L - 1) / L
    ∧ (∀ i, i + 1 < num_chunks d L → chunk_ms i L d = L)
    ∧ (0 < d → chunk_ms (num_chunks d L - 1) L d =
        if d % L = 0 then L else d % L)
    ∧ (∀ i, i < num_chunks d L → 0 < chunk_ms i L d)
    ∧ (∀ i, i + 1 < num_chunks d L →
        chunk_stop i L d = chunk_start (i + 1) L)
    ∧ (0 < d → chunk_stop (num_chunks d L - 1) L d = d)
    ∧ (∀ i, i < num_chunks d L →
        (chunks base d L)[i]? =
          some ⟨output_dir base ++ "/" ++ toString (i + 1) ++ ".wav",
            chunk_start i L, chunk_stop i L d⟩) := by
  refine ⟨?_, ?_, ?_, ?_, ?_, ?_, ?_⟩
  · simp [chunks, num_chunks_eq_ceil d L hL]
  · intro i h; exact chunk_ms_full d L i h
  · intro hd; exact chunk_ms_last d L hL hd
  · intro i h; exact chunk_ms_pos d L i hL h
  · intro i h; exact chunk_stop_eq_next_start d L i h
  · intro hd; exact chunk_stop_last d L hL hd
  · intro i h
    simp [chunks, List.getElem?_map, List.getElem?_range h, chunk_filename]

/-- Witness for C5, at the spec scenario of a 150-second file with
60-second segments. -/
theorem c5_segmenter_geometry_witness :
    0 < 60000 ∧ (chunks "recording" 150000 60000).length =
      (150000 + 60000 - 1) / 60000 :=
  ⟨by decide, (c5_segmenter_geometry "recording" 150000 60000 (by decide)).1⟩

/-- Claim C9: on an input of total duration 0 ms the pipeline computes
zero segments, runs the loop zero times, emits no progress and no
transcription events, writes an empty transcript file and still emits
the complete event. -/
theorem c9_zero_duration (base : String)
    (recognize : Nat → RecognitionOutcome) :
    num_chunks 0 chunk_length_ms = 0
    ∧ process_audio_file base none none none 0 recognize (fun _ => true) =
        ⟨[Event.complete (transcript_path base)],
          some (transcript_path base, ""), 1, true⟩
    ∧ progress_chunks (process_audio_file base none none none 0 recognize
        (fun _ => true)).events = []
    ∧ fragment_texts (process_audio_file base none none none 0 recognize
        (fun _ => true)).events = [] := by
  have h0 : num_chunks 0 chunk_length_ms = 0 := by decide
  have hrun := process_ok base 0 recognize
    (by intro i h1 h2; rw [h0] at h2; omega)
  rw [h0] at hrun
  have hps : pystrip "" = "" := by decide
  have hrun2 : process_audio_file base none none none 0 recognize
      (fun _ => true) =
      ⟨[Event.complete (transcript_path base)],
        some (transcript_path base, ""), 1, true⟩ := by
    rw [hrun]
    simp only [expected_events, expected_transcript, List.nil_append, hps]
  refine ⟨h0, hrun2, ?_, ?_⟩
  · rw [hrun2]; simp [progress_chunks]
  · rw [hrun2]; simp [fragment_texts]

/-- Claim C2: with the job's channel registered throughout, every run,
on the success path and on each failure path, puts exactly one terminal
event (complete or error), and it is the last event put. -/
theorem c2_single_terminal (base : String)
    (convert_error split_error save_error : Option String) (d : Nat)
    (recognize : Nat → RecognitionOutcome) :
    ∃ pre e,
      (process_audio_file base convert_error split_error save_error d
        recognize (fun _ => true)).events = pre ++ [e]
      ∧ isTerminal e = true
      ∧ pre.filter isTerminal = [] := by
  cases convert_error with
  | some cm =>
      refine ⟨[], Event.error
        ("Processing failed: Audio conversion failed: " ++ cm), ?_, rfl, rfl⟩
      simp [process_audio_file, finish, pushIf]
  | none =>
    cases split_error with
    | some sm =>
        refine ⟨[], Event.error
          ("Processing failed: Chunk creation failed: " ++ sm), ?_, rfl, rfl⟩
        simp [process_audio_file, finish, pushIf]
    | none =>
        rcases hE : transcribe_chunks (num_chunks d chunk_length_ms)
            (fun _ => true)
            (outs_from recognize (num_chunks d chunk_length_ms) 1) 1 0 ""
          with ⟨t, evs, ck, fl⟩
        have hnt : evs.filter isTerminal = [] := by
          have h := transcribe_chunks_no_terminal
            (num_chunks d chunk_length_ms) (fun _ => true)
            (outs_from recognize (num_chunks d chunk_length_ms) 1) 1 0 ""
          rw [hE] at h
          exact h
        cases fl with
        | some m =>
            refine ⟨evs, Event.error ("Processing failed: " ++ m), ?_, rfl, hnt⟩
            simp only [process_audio_file]
            rw [hE]
            simp [after_loop, finish, pushIf]
        | none =>
          cases save_error with
          | some vm =>
              refine ⟨evs, Event.error
                ("Processing failed: Failed to save transcription: " ++ vm),
                ?_, rfl, hnt⟩
              simp only [process_audio_file]
              rw [hE]
              simp [after_loop, finish, pushIf]
          | none =>
              refine ⟨evs, Event.complete (transcript_path base), ?_, rfl, hnt⟩
              simp only [process_audio_file]
              rw [hE]
              simp [after_loop, finish, pushIf]

/-- Claim C1: for a job that reaches complete (no conversion, split,
service or save failure) with its channel registered throughout, the
saved file content equals the stripped concatenation of the texts of all
transcription events put into the queue, in order; each fragment text
already carries its single separating space. -/
theorem c1_roundtrip (base : String) (d : Nat)
    (recognize : Nat → RecognitionOutcome)
    (hok : ∀ i, 1 ≤ i → i ≤ num_chunks d chunk_length_ms →
      isServiceError (recognize i) = false) :
    (process_audio_file base none none none d recognize (fun _ => true)).saved =
      some (transcript_path base,
        pystrip (concat_strings (fragment_texts
          (process_audio_file base none none none d recognize
            (fun _ => true)).events))) := by
  have hrun := process_ok base d recognize hok
  have hev : (process_audio_file base none none none d recognize
      (fun _ => true)).events =
      expected_events recognize (num_chunks d chunk_length_ms)
        (num_chunks d chunk_length_ms) 1 ++
        [Event.complete (transcript_path base)] := by rw [hrun]
  rw [hev, fragment_texts_append, fragment_texts_expected]
  rw [show fragment_texts [Event.complete (transcript_path base)] = []
    from rfl]
  rw [List.append_nil, concat_expected_fragments]
  rw [hrun]

/-- Witness for C1 on a two-chunk input. -/
theorem c1_roundtrip_witness :
    isServiceError (RecognitionOutcome.success "hello") = false
    ∧ (process_audio_file "w1" none none none 70000
        (fun i => RecognitionOutcome.success
          (if i = 1 then "hello" else "world")) (fun _ => true)).saved =
      some (transcript_path "w1",
        pystrip (concat_strings (fragment_texts
          (process_audio_file "w1" none none none 70000
            (fun i => RecognitionOutcome.success
              (if i = 1 then "hello" else "world"))
            (fun _ => true)).events))) :=
  ⟨rfl, c1_roundtrip "w1" 70000
    (fun i => RecognitionOutcome.success (if i = 1 then "hello" else "world"))
    (fun i h1 h2 => rfl)⟩

/-- Claim C6: for a job that completes all N segments with its channel
registered throughout, the event sequence is exactly the alternation
progress 1, fragment 1, ..., progress N, fragment N followed by the
complete event, so every fragment comes immediately after its progress
event; the progress chunk indices are the strictly increasing sequence
1..N. -/
theorem c6_progress_fragment_order (base : String) (d : Nat)
    (recognize : Nat → RecognitionOutcome)
    (hok : ∀ i, 1 ≤ i → i ≤ num_chunks d chunk_length_ms →
      isServiceError (recognize i) = false) :
    (process_audio_file base none none none d recognize (fun _ => true)).events =
        expected_events recognize (num_chunks d chunk_length_ms)
          (num_chunks d chunk_length_ms) 1 ++
          [Event.complete (transcript_path base)]
    ∧ progress_chunks (process_audio_file base none none none d recognize
        (fun _ => true)).events =
        (List.range (num_chunks d chunk_length_ms)).map (fun j => 1 + j)
    ∧ (progress_chunks (process_audio_file base none none none d recognize
        (fun _ => true)).events).Pairwise (· < ·)
    ∧ (progress_chunks (process_audio_file base none none none d recognize
        (fun _ => true)).events).length = num_chunks d chunk_length_ms := by
  have hrun := process_ok base d recognize hok
  have hev : (process_audio_file base none none none d recognize
      (fun _ => true)).events =
      expected_events recognize (num_chunks d chunk_length_ms)
        (num_chunks d chunk_length_ms) 1 ++
        [Event.complete (transcript_path base)] := by rw [hrun]
  have hpc : progress_chunks (process_audio_file base none none none d recognize
      (fun _ => true)).events =
      (List.range (num_chunks d chunk_length_ms)).map (fun j => 1 + j) := by
    rw [hev, progress_chunks_append, progress_chunks_expected]
    rw [show progress_chunks [Event.complete (transcript_path base)] = []
      from rfl]
    rw [List.append_nil, range_from_eq_map]
  refine ⟨hev, hpc, ?_, ?_⟩
  · rw [hpc]
    exact (List.pairwise_lt_range _).map _ (fun a b h => by omega)
  · rw [hpc]; simp

/-- Witness for C6 on a three-chunk input. -/
theorem c6_progress_fragment_order_witness :
    isServiceError (RecognitionOutcome.success "ok") = false
    ∧ progress_chunks (process_audio_file "w6" none none none 150000
        (fun _ => RecognitionOutcome.success "ok") (fun _ => true)).events =
      (List.range (num_chunks 150000 chunk_length_ms)).map (fun j => 1 + j) :=
  ⟨rfl, (c6_progress_fragment_order "w6" 150000
    (fun _ => RecognitionOutcome.success "ok") (fun i h1 h2 => rfl)).2.1⟩

/-- Claim C3: when the recognition service raises RequestError at chunk k
(and earlier chunks do not), the run, with the channel registered
throughout, puts exactly the events of chunks 1..k-1 followed by one
error event carrying the chained message, saves no transcript, and no
progress or transcription event of any chunk after k-1 is ever put. -/
theorem c3_service_error_aborts (base : String) (save_error : Option String)
    (d k : Nat) (msg : String) (recognize : Nat → RecognitionOutcome)
    (hk1 : 1 ≤ k) (hk2 : k ≤ num_chunks d chunk_length_ms)
    (herr : recognize k = RecognitionOutcome.serviceError msg)
    (hok : ∀ j, 1 ≤ j → j < k → isServiceError (recognize j) = false) :
    (process_audio_file base none none save_error d recognize
        (fun _ => true)).events =
        expected_events recognize (num_chunks d chunk_length_ms) (k - 1) 1 ++
          [Event.error ("Processing failed: Transcription failed at chunk " ++
            toString k ++ ": Could not request results: " ++ msg)]
    ∧ (process_audio_file base none none save_error d recognize
        (fun _ => true)).saved = none
    ∧ (∀ i t, Event.progress i t ∈ (process_audio_file base none none
        save_error d recognize (fun _ => true)).events → i < k)
    ∧ (∀ s, Event.transcription s ∈ (process_audio_file base none none
        save_error d recognize (fun _ => true)).events →
        ∃ j, 1 ≤ j ∧ j < k ∧ s = outcome_text (recognize j) ++ " ") := by
  have hloop := transcribe_chunks_err recognize (num_chunks d chunk_length_ms)
    msg (k - 1) (num_chunks d chunk_length_ms) 1 0 "" (by omega)
    (by intro j h1 h2; exact hok j h1 (by omega))
    (by rw [show 1 + (k - 1) = k from by omega]; exact herr)
  rw [show 1 + (k - 1) = k from by omega] at hloop
  have hmsg : "Processing failed: " ++ ("Transcription failed at chunk " ++
      toString k ++ ": Could not request results: " ++ msg) =
      "Processing failed: Transcription failed at chunk " ++
        toString k ++ ": Could not request results: " ++ msg := by
    have h : ("Processing failed: " : String) ++
        "Transcription failed at chunk " =
        "Processing failed: Transcription failed at chunk " := by decide
    rw [← h]
    simp only [str_append_assoc]
  have hev : (process_audio_file base none none save_error d recognize
      (fun _ => true)).events =
      expected_events recognize (num_chunks d chunk_length_ms) (k - 1) 1 ++
        [Event.error ("Processing failed: Transcription failed at chunk " ++
          toString k ++ ": Could not request results: " ++ msg)] := by
    simp only [process_audio_file]
    rw [hloop]
    simp [after_loop, finish, pushIf, hmsg]
  have hsaved : (process_audio_file base none none save_error d recognize
      (fun _ => true)).saved = none := by
    simp only [process_audio_file]
    rw [hloop]
    simp [after_loop, finish]
  refine ⟨hev, hsaved, ?_, ?_⟩
  · intro i t hmem
    rw [hev] at hmem
    rcases List.mem_append.mp hmem with h | h
    · have := progress_mem_expected recognize (num_chunks d chunk_length_ms)
        (k - 1) 1 i t h
      omega
    · simp at h
  · intro s hmem
    rw [hev] at hmem
    rcases List.mem_append.mp hmem with h | h
    · obtain ⟨j, h1, h2, h3⟩ := transcription_mem_expected recognize
        (num_chunks d chunk_length_ms) (k - 1) 1 s h
      exact ⟨j, h1, by omega, h3⟩
    · simp at h

/-- Witness for C3: three chunks, RequestError at chunk 2. -/
theorem c3_service_error_aborts_witness :
    1 ≤ 2 ∧ 2 ≤ num_chunks 150000 chunk_length_ms
    ∧ (fun i => if i = 2 then RecognitionOutcome.serviceError "boom"
        else RecognitionOutcome.success "ok") 2 =
      RecognitionOutcome.serviceError "boom"
    ∧ (process_audio_file "w3" none none none 150000
        (fun i => if i = 2 then RecognitionOutcome.serviceError "boom"
          else RecognitionOutcome.success "ok") (fun _ => true)).saved = none :=
  ⟨by decide, by decide, by decide,
    (c3_service_error_aborts "w3" none 150000 2 "boom"
      (fun i => if i = 2 then RecognitionOutcome.serviceError "boom"
        else RecognitionOutcome.success "ok")
      (by decide) (by decide) (by decide)
      (by
        intro j h1 h2
        have hj : j = 1 := by omega
        subst hj
        decide)).2.1⟩

/-- Claim C4: a notUnderstood outcome at chunk k never aborts the job:
the placeholder text appears verbatim, with its separating space, as the
k-th transcription-event text and at the k-th position of the fragment
list whose stripped concatenation is the saved file content; all N
chunks are processed and the run still completes. -/
theorem c4_not_understood_continues (base : String) (d k : Nat)
    (recognize : Nat → RecognitionOutcome)
    (hk1 : 1 ≤ k) (hk2 : k ≤ num_chunks d chunk_length_ms)
    (hnu : recognize k = RecognitionOutcome.notUnderstood)
    (hok : ∀ i, 1 ≤ i → i ≤ num_chunks d chunk_length_ms →
      isServiceError (recognize i) = false) :
    (process_audio_file base none none none d recognize (fun _ => true)).saved =
        some (transcript_path base,
          pystrip (concat_strings (expected_fragments recognize
            (num_chunks d chunk_length_ms) 1)))
    ∧ fragment_texts (process_audio_file base none none none d recognize
        (fun _ => true)).events =
        expected_fragments recognize (num_chunks d chunk_length_ms) 1
    ∧ (expected_fragments recognize (num_chunks d chunk_length_ms) 1)[k - 1]? =
        some (placeholder ++ " ")
    ∧ (fragment_texts (process_audio_file base none none none d recognize
        (fun _ => true)).events).length = num_chunks d chunk_length_ms
    ∧ ∃ pre, (process_audio_file base none none none d recognize
        (fun _ => true)).events =
        pre ++ [Event.complete (transcript_path base)] := by
  have hrun := process_ok base d recognize hok
  have hev : (process_audio_file base none none none d recognize
      (fun _ => true)).events =
      expected_events recognize (num_chunks d chunk_length_ms)
        (num_chunks d chunk_length_ms) 1 ++
        [Event.complete (transcript_path base)] := by rw [hrun]
  have hfr : fragment_texts (process_audio_file base none none none d recognize
      (fun _ => true)).events =
      expected_fragments recognize (num_chunks d chunk_length_ms) 1 := by
    rw [hev, fragment_texts_append, fragment_texts_expected]
    rw [show fragment_texts [Event.complete (transcript_path base)] = []
      from rfl]
    rw [List.append_nil]
  refine ⟨?_, hfr, ?_, ?_, ?_⟩
  · rw [concat_expected_fragments, hrun]
  · rw [expected_fragments_getElem recognize (num_chunks d chunk_length_ms) 1
      (k - 1) (by omega)]
    rw [show 1 + (k - 1) = k from by omega, hnu]
    rfl
  · rw [hfr, expected_fragments_length]
  · exact ⟨expected_events recognize (num_chunks d chunk_length_ms)
      (num_chunks d chunk_length_ms) 1, hev⟩

/-- Witness for C4: two chunks, notUnderstood at chunk 2. -/
theorem c4_not_understood_continues_witness :
    1 ≤ 2 ∧ 2 ≤ num_chunks 70000 chunk_length_ms
    ∧ (fun i => if i = 2 then RecognitionOutcome.notUnderstood
        else RecognitionOutcome.success "ok") 2 =
      RecognitionOutcome.notUnderstood
    ∧ (expected_fragments (fun i => if i = 2 then
        RecognitionOutcome.notUnderstood else RecognitionOutcome.success "ok")
        (num_chunks 70000 chunk_length_ms) 1)[2 - 1]? =
      some (placeholder ++ " ") :=
  ⟨by decide, by decide, by decide,
    (c4_not_understood_continues "w4" 70000 2
      (fun i => if i = 2 then RecognitionOutcome.notUnderstood
        else RecognitionOutcome.success "ok")
      (by decide) (by decide) (by decide)
      (by
        intro i h1 h2
        by_cases hi : i = 2 <;> simp [hi, isServiceError])).2.2.1⟩

/-- Counterexample for claim C7: app.py line 136 writes
full_transcription.strip(), which also removes leading whitespace.  With
one chunk recognized as " a" the accumulated transcript is " a " and the
claim's trailing-only trim would give " a", but the file content is "a". -/
theorem c7_counterexample :
    expected_transcript (fun _ => RecognitionOutcome.success " a") 1 1 = " a "
    ∧ (process_audio_file "x" none none none 1
        (fun _ => RecognitionOutcome.success " a") (fun _ => true)).saved =
      some (transcript_path "x", "a")
    ∧ spec_trailing_trim " a " = " a"
    ∧ ("a" : String) ≠ " a" :=
  ⟨by decide, by decide, by decide, by decide⟩

/-- Claim C7 as amended: on completing all N segments the pipeline writes
the accumulated transcript stripped of leading and trailing whitespace to
the deterministic path transcriptions/transcription_for_basename.txt and
then emits the complete event carrying that path, as the last event. -/
theorem c7_save_stripped (base : String) (d : Nat)
    (recognize : Nat → RecognitionOutcome)
    (hok : ∀ i, 1 ≤ i → i ≤ num_chunks d chunk_length_ms →
      isServiceError (recognize i) = false) :
    (process_audio_file base none none none d recognize (fun _ => true)).saved =
        some (transcript_path base,
          pystrip (expected_transcript recognize
            (num_chunks d chunk_length_ms) 1))
    ∧ transcript_path base =
        "transcriptions/transcription_for_" ++ base ++ ".txt"
    ∧ ∃ pre, (process_audio_file base none none none d recognize
        (fun _ => true)).events =
        pre ++ [Event.complete (transcript_path base)] := by
  have hrun := process_ok base d recognize hok
  refine ⟨by rw [hrun], ?_, ?_⟩
  · have h : TRANSCRIPT_FOLDER ++ "/transcription_for_" =
        "transcriptions/transcription_for_" := by decide
    rw [transcript_path, ← h]
  · exact ⟨expected_events recognize (num_chunks d chunk_length_ms)
      (num_chunks d chunk_length_ms) 1, by rw [hrun]⟩

/-- Witness for the amended C7. -/
theorem c7_save_stripped_witness :
    isServiceError (RecognitionOutcome.success "hey") = false
    ∧ (process_audio_file "w7" none none none 90000
        (fun _ => RecognitionOutcome.success "hey") (fun _ => true)).saved =
      some (transcript_path "w7",
        pystrip (expected_transcript (fun _ => RecognitionOutcome.success "hey")
          (num_chunks 90000 chunk_length_ms) 1)) :=
  ⟨rfl, (c7_save_stripped "w7" 90000
    (fun _ => RecognitionOutcome.success "hey") (fun i h1 h2 => rfl)).1⟩

/-- Claim C8: a guarded put for an unregistered job id leaves the
registry unchanged (a no-op, never an error), guarded deletion of an
absent key is a no-op, teardown is idempotent, and the pipeline's
finally-block teardown runs exactly once on every execution path. -/
theorem c8_registry_teardown (r : Registry) (k : String) (e : Event)
    (base : String) (convert_error split_error save_error : Option String)
    (d : Nat) (recognize : Nat → RecognitionOutcome) (reg : Nat → Bool)
    (habs : r.contains k = false) :
    Registry.push r k e = r
    ∧ Registry.deregister r k = r
    ∧ (∀ r2 : Registry, Registry.deregister (Registry.deregister r2 k) k =
        Registry.deregister r2 k)
    ∧ (process_audio_file base convert_error split_error save_error d
        recognize reg).teardown_runs = 1 := by
  refine ⟨?_, ?_, ?_, ?_⟩
  · have hu : Registry.push r k e =
        if r.contains k then
          fun k2 => if k2 = k then (r k).map (fun q => q ++ [e]) else r k2
        else r := rfl
    rw [hu, habs]
    simp
  · have hu : Registry.deregister r k =
        if r.contains k then fun k2 => if k2 = k then none else r k2
        else r := rfl
    rw [hu, habs]
    simp
  · intro r2
    have h := deregister_contains_false r2 k
    have hu : Registry.deregister (Registry.deregister r2 k) k =
        if (Registry.deregister r2 k).contains k then
          fun k2 => if k2 = k then none else (Registry.deregister r2 k) k2
        else Registry.deregister r2 k := rfl
    rw [hu, h]
    simp
  · exact process_teardown_runs base convert_error split_error save_error d
      recognize reg

/-- Witness for C8 on the empty registry. -/
theorem c8_registry_teardown_witness :
    Registry.contains (fun _ => none) "job" = false
    ∧ Registry.push (fun _ => none) "job" (Event.progress 1 1) =
      (fun _ => none) :=
  ⟨rfl, (c8_registry_teardown (fun _ => none) "job" (Event.progress 1 1)
    "w8" none none none 0 (fun _ => RecognitionOutcome.notUnderstood)
    (fun _ => true) rfl).1⟩

/-- Claim C10: the saved transcript file does not depend on the registry
guards: two runs of the same job differing only in the guard oracle save
the same thing, and on the success path the saved content is the
stripped accumulation of every chunk's text, whether or not any event
was put. -/
theorem c10_saved_independent_of_registry (base : String)
    (convert_error split_error save_error : Option String) (d : Nat)
    (recognize : Nat → RecognitionOutcome) (reg1 reg2 : Nat → Bool) :
    (process_audio_file base convert_error split_error save_error d recognize
        reg1).saved =
      (process_audio_file base convert_error split_error save_error d recognize
        reg2).saved
    ∧ ((convert_error = none ∧ split_error = none ∧ save_error = none ∧
        (∀ i, 1 ≤ i → i ≤ num_chunks d chunk_length_ms →
          isServiceError (recognize i) = false)) →
      (process_audio_file base convert_error split_error save_error d recognize
        reg2).saved =
        some (transcript_path base,
          pystrip (expected_transcript recognize
            (num_chunks d chunk_length_ms) 1))) := by
  constructor
  · cases convert_error with
    | some cm => simp [process_audio_file, finish]
    | none =>
      cases split_error with
      | some sm => simp [process_audio_file, finish]
      | none =>
          have hind := transcribe_chunks_reg_indep
            (num_chunks d chunk_length_ms) reg1 reg2
            (outs_from recognize (num_chunks d chunk_length_ms) 1) 1 0 ""
          rcases hE1 : transcribe_chunks (num_chunks d chunk_length_ms) reg1
              (outs_from recognize (num_chunks d chunk_length_ms) 1) 1 0 ""
            with ⟨t1, e1, c1, f1⟩
          rcases hE2 : transcribe_chunks (num_chunks d chunk_length_ms) reg2
              (outs_from recognize (num_chunks d chunk_length_ms) 1) 1 0 ""
            with ⟨t2, e2, c2, f2⟩
          rw [hE1, hE2] at hind
          obtain ⟨ht, hc, hf⟩ := hind
          dsimp only at ht hc hf
          subst ht
          subst hf
          simp only [process_audio_file]
          rw [hE1, hE2]
          cases f1 <;> cases save_error <;> simp [after_loop, finish]
  · rintro ⟨hce, hse, hsve, hok⟩
    subst hce
    subst hse
    subst hsve
    simp only [process_audio_file]
    rw [transcribe_chunks_ok recognize (num_chunks d chunk_length_ms) reg2
      (num_chunks d chunk_length_ms) 1 0 ""
      (by intro j h1 h2; exact hok j h1 (by omega))]
    simp [after_loop, finish, str_empty_append]

/-- Witness for C10: a run with every guard failing against a run with
every guard holding. -/
theorem c10_saved_independent_of_registry_witness :
    (process_audio_file "w0" none none none 70000
        (fun _ => RecognitionOutcome.success "hi") (fun _ => false)).saved =
      (process_audio_file "w0" none none none 70000
        (fun _ => RecognitionOutcome.success "hi") (fun _ => true)).saved
    ∧ (process_audio_file "w0" none none none 70000
        (fun _ => RecognitionOutcome.success "hi") (fun _ => true)).saved =
      some (transcript_path "w0",
        pystrip (expected_transcript (fun _ => RecognitionOutcome.success "hi")
          (num_chunks 70000 chunk_length_ms) 1)) := by
  have h := c10_saved_independent_of_registry "w0" none none none 70000
    (fun _ => RecognitionOutcome.success "hi") (fun _ => false) (fun _ => true)
  exact ⟨h.1, h.2 ⟨rfl, rfl, rfl, fun i h1 h2 => rfl⟩⟩
